import Mathlib

/-
Shallow embedding of the urql-tinybase-exchange core (src/index.ts) together
with a model of the external TinyBase row store at its interface boundary.
The embedding follows the source: the directive stripper, the response
reconciler (processDirectives, processData and the root selection loop), and
the store primitives setPartialRow and delRow. Store mutations and console
diagnostics are recorded as an ordered event trace; a JavaScript runtime
exception (reading a property of null) is modelled by an error component that
aborts the remainder of the traversal, exactly as a thrown TypeError would.
-/

set_option linter.unusedVariables false

namespace UrqlTinybase

/-- JSON-like response values. Numbers are modelled as integers, which covers
the ids and cell values this exchange manipulates. A missing (undefined)
object field is represented by vnull; the source only ever checks such a
value for truthiness or coerces it with String, never distinguishing null
from undefined in a way that matters here. -/
inductive Value where
  | vnull : Value
  | vbool : Bool → Value
  | vnum : Int → Value
  | vstr : String → Value
  | varr : List Value → Value
  | vobj : List (String × Value) → Value

/-- JavaScript truthiness of a value: null, false, 0 and the empty string are
falsy; arrays and objects are always truthy. -/
def truthy : Value → Bool
  | Value.vnull => false
  | Value.vbool b => b
  | Value.vnum n => n != 0
  | Value.vstr s => s != ""
  | Value.varr _ => true
  | Value.vobj _ => true

mutual

/-- JavaScript String coercion of a value: String(null) is "null", booleans
print as true or false, numbers in decimal, arrays join their elements with
commas (null elements become empty), objects print as [object Object]. -/
def jsString : Value → String
  | Value.vnull => "null"
  | Value.vbool b => if b then "true" else "false"
  | Value.vnum n => toString n
  | Value.vstr s => s
  | Value.varr xs => jsArrJoin xs
  | Value.vobj _ => "[object Object]"

/-- Join of array elements with commas, as in Array.prototype.toString. -/
def jsArrJoin : List Value → String
  | [] => ""
  | x :: rest =>
      let hd := match x with
        | Value.vnull => ""
        | v => jsString v
      match rest with
      | [] => hd
      | _ => hd ++ "," ++ jsArrJoin rest

end

/-- Lookup in an association list keyed by strings, first match wins; this
models JavaScript object property access (parsed JSON has unique keys). -/
def getA {α : Type} : List (String × α) → String → Option α
  | [], _ => none
  | (k, v) :: rest, key => if k == key then some v else getA rest key

/-- Update an association list: replace the value at an existing key in
place, else append the binding at the end, as JavaScript key assignment
preserves insertion order. -/
def setA {α : Type} : List (String × α) → String → α → List (String × α)
  | [], key, v => [(key, v)]
  | (k0, v0) :: rest, key, v =>
      if k0 == key then (k0, v) :: rest else (k0, v0) :: setA rest key v

/-- Remove every binding of a key from an association list. -/
def delA {α : Type} (m : List (String × α)) (key : String) : List (String × α) :=
  m.filter (fun kv => kv.1 != key)

/-- Object field access returning vnull for a missing key, modelling the
undefined result of a JavaScript property read. -/
def lookupField (fields : List (String × Value)) (k : String) : Value :=
  (getA fields k).getD Value.vnull

/-- Property access on an arbitrary value: objects look the key up, every
other value yields undefined (modelled as vnull). -/
def getProp (v : Value) (k : String) : Value :=
  match v with
  | Value.vobj fields => lookupField fields k
  | _ => Value.vnull

/-- Modelled from the spec: a TinyBase cell holds a primitive, that is a
string, number or boolean; nested objects, arrays and null are not
representable as cell values (spec sections 3 and 6). -/
def isScalarCell : Value → Bool
  | Value.vbool _ => true
  | Value.vnum _ => true
  | Value.vstr _ => true
  | _ => false

/-- Modelled from the spec: the external TinyBase row store, organized as
named tables of rows, each row a flat cell map addressed by table name and
row id (spec glossary and section 6). -/
structure Store where
  tables : List (String × List (String × List (String × Value)))

/-- The empty store. -/
def Store.empty : Store := ⟨[]⟩

/-- Row lookup in the store. -/
def storeGetRow (st : Store) (t id : String) : Option (List (String × Value)) :=
  (getA st.tables t).bind (fun tbl => getA tbl id)

/-- Row existence test, the hasRow primitive of the store interface. -/
def storeHasRow (st : Store) (t id : String) : Bool :=
  (storeGetRow st t id).isSome

/-- Cell lookup in the store. -/
def getCell (st : Store) (t id k : String) : Option Value :=
  (storeGetRow st t id).bind (fun row => getA row k)

/-- Merge a list of cells into an existing row, later bindings winning, as a
sequence of key assignments would. -/
def mergeCells (old : List (String × Value)) (cells : List (String × Value)) :
    List (String × Value) :=
  cells.foldl (fun r kv => setA r kv.1 kv.2) old

/-- Modelled from the spec: setPartialRow of the external store, with merge
semantics; unspecified existing cells are retained, specified cells are
overwritten, the row is created if absent (spec section 6), and values that
are not primitives are not representable as cells and are dropped (spec
section 3); when nothing representable remains the call changes nothing. -/
def setPartialRowStore (st : Store) (t id : String)
    (cells : List (String × Value)) : Store :=
  let valid := cells.filter (fun kv => isScalarCell kv.2)
  if valid.isEmpty then st
  else
    let tbl := (getA st.tables t).getD []
    let old := (getA tbl id).getD []
    ⟨setA st.tables t (setA tbl id (mergeCells old valid))⟩

/-- Modelled from the spec: delRow of the external store removes the entire
row and is a no-op when the row is absent (spec section 6). -/
def delRowStore (st : Store) (t id : String) : Store :=
  match getA st.tables t with
  | none => st
  | some tbl => ⟨setA st.tables t (delA tbl id)⟩

/-- Directive argument values as tagged by the GraphQL AST: a string
literal, an enumeration symbol, or any other kind carrying its kind name for
the diagnostic message. -/
inductive ValueNode where
  | stringValue : String → ValueNode
  | enumValue : String → ValueNode
  | otherValue : String → ValueNode
deriving DecidableEq

/-- A directive argument: a name and a value node. -/
structure Argument where
  name : String
  value : ValueNode
deriving DecidableEq

/-- A directive: a name and its argument list; an AST without an argument
list behaves like the empty list, since the source only ever searches it. -/
structure Directive where
  name : String
  arguments : List Argument
deriving DecidableEq

/-- An observable event of one reconciliation: a store mutation or a console
diagnostic, in the order the source performs them. -/
inductive Event where
  | setPartialRow : String → String → List (String × Value) → Event
  | delRow : String → String → Event
  | errorLog : String → Event
  | warnLog : String → Event

/-- Whether an event is a store mutation rather than a diagnostic. -/
def isMutation : Event → Bool
  | Event.setPartialRow _ _ _ => true
  | Event.delRow _ _ => true
  | _ => false

/-- Result of running a piece of the reconciler: the events it emitted, and
an error when a JavaScript exception was thrown, which aborts everything
that would have run after it. -/
structure Out where
  events : List Event
  err : Option String

/-- The result that emits nothing. -/
def Out.empty : Out := ⟨[], none⟩

/-- Sequencing of two computations: a thrown exception in the first aborts
the second, otherwise the event traces concatenate. -/
def Out.seq (a b : Out) : Out :=
  match a.err with
  | some _ => a
  | none => ⟨a.events ++ b.events, b.err⟩

/-- Apply one mutation event to the store; diagnostics leave it unchanged. -/
def applyEvent (st : Store) : Event → Store
  | Event.setPartialRow t id cells => setPartialRowStore st t id cells
  | Event.delRow t id => delRowStore st t id
  | _ => st

/-- Apply a trace of events to the store in order. -/
def applyEvents (st : Store) (es : List Event) : Store :=
  es.foldl applyEvent st

/-- The message of the TypeError thrown by reading the id property of a null
array element. -/
def nullIdError : String :=
  "TypeError: cannot read property id of null"

/-- Predicate used with find to locate a directive by name, as the source
does with directives.find. -/
def isNamedDir (nm : String) (d : Directive) : Bool := d.name == nm

/-- Locate the table argument of a directive, as the source does with
directive.arguments.find. -/
def findTableArg (args : List Argument) : Option Argument :=
  args.find? (fun a => a.name == "table")

/-- ASCII lowercasing, the conversion the source applies to an enum table
name; GraphQL enum names are ASCII so this coincides with the JavaScript
toLowerCase call in the source. -/
def asciiLower (s : String) : String := ⟨s.data.map Char.toLower⟩

/-- Embeds lines 95 to 104 of the source: the per-element loop of a merge
directive over an array value. An element with a truthy id is upserted with
all of its fields; a non-null element without a truthy id is skipped with a
warning; reading the id property of a null element throws a TypeError which
aborts the loop and propagates. -/
def mergeRows (tableName : String) : List Value → Out
  | [] => Out.empty
  | row :: rest =>
      match row with
      | Value.vnull => ⟨[], some nullIdError⟩
      | Value.vobj fields =>
          if truthy (lookupField fields "id") then
            Out.seq ⟨[Event.setPartialRow tableName
                (jsString (lookupField fields "id")) fields], none⟩
              (mergeRows tableName rest)
          else
            Out.seq ⟨[Event.warnLog
                ("[TinyBase Exchange] Skipping row without id field in table "
                  ++ tableName)], none⟩
              (mergeRows tableName rest)
      | _ =>
          Out.seq ⟨[Event.warnLog
              ("[TinyBase Exchange] Skipping row without id field in table "
                ++ tableName)], none⟩
            (mergeRows tableName rest)

/-- Embeds lines 93 to 113 of the source: the data handling of a merge
directive once its table name is resolved. Only truthy object-typed values
are considered; an array is handled per element; a single object with a
truthy id is upserted with all of its fields, otherwise a warning is
emitted; all other values are ignored. -/
def mergeApply (tableName : String) (data : Value) : Out :=
  match data with
  | Value.varr rows => mergeRows tableName rows
  | Value.vobj fields =>
      if truthy (lookupField fields "id") then
        ⟨[Event.setPartialRow tableName
            (jsString (lookupField fields "id")) fields], none⟩
      else
        ⟨[Event.warnLog
            ("[TinyBase Exchange] Cannot merge data without id field into table "
              ++ tableName)], none⟩
  | _ => Out.empty

/-- Embeds lines 146 to 154 of the source: the data handling of a delete
directive once its table name is resolved. A falsy value is ignored; an
array deletes one row per element with the String coercion of the element;
any other truthy value deletes the single row named by its String
coercion. -/
def deleteApply (tableName : String) (data : Value) : Out :=
  if truthy data then
    match data with
    | Value.varr ids =>
        ⟨ids.map (fun i => Event.delRow tableName (jsString i)), none⟩
    | _ => ⟨[Event.delRow tableName (jsString data)], none⟩
  else Out.empty

/-- Embeds lines 117 to 155 of the source: locate a delete directive, resolve
its table argument (string literal verbatim, enum symbol lowercased, anything
else an error), then apply the deletion to the in-scope value. -/
def deletePhase (dirs : List Directive) (data : Value) : Out :=
  match dirs.find? (isNamedDir "dbDeleteRow") with
  | none => Out.empty
  | some dd =>
      match findTableArg dd.arguments with
      | none =>
          ⟨[Event.errorLog
              "[TinyBase Exchange] @dbDeleteRow directive is missing required table argument"],
            none⟩
      | some ta =>
          match ta.value with
          | ValueNode.stringValue s => deleteApply s data
          | ValueNode.enumValue s => deleteApply (asciiLower s) data
          | ValueNode.otherValue k =>
              ⟨[Event.errorLog
                  ("[TinyBase Exchange] @dbDeleteRow table argument must be a string or enum. Got: "
                    ++ k)], none⟩

/-- Embeds lines 60 to 156 of the source, the processDirectives helper. The
merge directive is located and handled first; a missing or wrong-kind table
argument on it logs an error and returns early, so the delete directive of
the same node is then not examined, matching the early return statements at
lines 76 and 91 of the source. When the merge phase completes without a
thrown exception, the delete directive is located and handled. -/
def processDirectives (dirs : List Directive) (data : Value) : Out :=
  match dirs.find? (isNamedDir "dbMergeRow") with
  | none => deletePhase dirs data
  | some md =>
      match findTableArg md.arguments with
      | none =>
          ⟨[Event.errorLog
              "[TinyBase Exchange] @dbMergeRow directive is missing required table argument"],
            none⟩
      | some ta =>
          match ta.value with
          | ValueNode.stringValue s =>
              Out.seq (mergeApply s data) (deletePhase dirs data)
          | ValueNode.enumValue s =>
              Out.seq (mergeApply (asciiLower s) data) (deletePhase dirs data)
          | ValueNode.otherValue k =>
              ⟨[Event.errorLog
                  ("[TinyBase Exchange] @dbMergeRow table argument must be a string or enum. Got: "
                    ++ k)], none⟩

/-- A merge directive with a single table argument, a convenience builder
used in the theorems. -/
def mergeDirOn (tv : ValueNode) : Directive :=
  ⟨"dbMergeRow", [⟨"table", tv⟩]⟩

/-- A delete directive with a single table argument, a convenience builder
used in the theorems. -/
def deleteDirOn (tv : ValueNode) : Directive :=
  ⟨"dbDeleteRow", [⟨"table", tv⟩]⟩

mutual

/-- A selection node of the query AST: a field with name, optional alias,
directives and sub-selections; an inline fragment with directives and
sub-selections; or a fragment spread carrying its own directives. A field
or inline fragment without a selection set is modelled with the empty
selection list, which the traversal treats identically (iterating no
selections), since the source only ever iterates the selections of a
present selection set. -/
inductive Selection where
  | field : String → Option String → List Directive → Selections → Selection
  | inlineFragment : List Directive → Selections → Selection
  | fragmentSpread : String → List Directive → Selection

/-- A list of selection nodes, the selections of one selection set. -/
inductive Selections where
  | nil : Selections
  | cons : Selection → Selections → Selections

end

/-- A fragment definition: name, type condition, its directive list and its
selection set. -/
structure FragmentDef where
  name : String
  typeCond : String
  directives : List Directive
  selections : Selections

/-- A top-level definition of the document: the operation definition with
its directives and root selection set, or a fragment definition. -/
inductive Definition where
  | operationDef : List Directive → Selections → Definition
  | fragmentDef : FragmentDef → Definition

/-- A query document, the list of its top-level definitions. -/
structure Document where
  definitions : List Definition

/-- The structural induction principle for the mutual selection types,
packaged so both statements are produced together. -/
theorem selInduction {P : Selection → Prop} {Q : Selections → Prop}
    (hf : ∀ n a ds sub, Q sub → P (Selection.field n a ds sub))
    (hi : ∀ ds sub, Q sub → P (Selection.inlineFragment ds sub))
    (hs : ∀ n ds, P (Selection.fragmentSpread n ds))
    (hnil : Q Selections.nil)
    (hcons : ∀ s l, P s → Q l → Q (Selections.cons s l)) :
    (∀ s, P s) ∧ (∀ l, Q l) :=
  ⟨fun s => Selection.rec hf hi hs hnil hcons s,
   fun l => Selections.rec hf hi hs hnil hcons l⟩

/-- Whether a directive name is one of the two recognized database
directives removed by the stripper. -/
def isDbName (s : String) : Bool :=
  s == "dbMergeRow" || s == "dbDeleteRow"

/-- Embeds lines 22 to 31 of the source: the visitor removes every Directive
node named dbMergeRow or dbDeleteRow, wherever it occurs, leaving every
other directive in place; on a directive list this is a filter. -/
def stripDirs (ds : List Directive) : List Directive :=
  ds.filter (fun d => !isDbName d.name)

mutual

/-- The directive stripper on one selection node. -/
def stripSel : Selection → Selection
  | Selection.field n a ds sub => Selection.field n a (stripDirs ds) (stripSels sub)
  | Selection.inlineFragment ds sub => Selection.inlineFragment (stripDirs ds) (stripSels sub)
  | Selection.fragmentSpread n ds => Selection.fragmentSpread n (stripDirs ds)

/-- The directive stripper on a selection list. -/
def stripSels : Selections → Selections
  | Selections.nil => Selections.nil
  | Selections.cons s rest => Selections.cons (stripSel s) (stripSels rest)

end

/-- The directive stripper on a top-level definition. -/
def stripDef : Definition → Definition
  | Definition.operationDef ds sels =>
      Definition.operationDef (stripDirs ds) (stripSels sels)
  | Definition.fragmentDef fd =>
      Definition.fragmentDef
        ⟨fd.name, fd.typeCond, stripDirs fd.directives, stripSels fd.selections⟩

/-- The directive stripper on a whole document; the graphql visit call
returns this new document and leaves its input untouched, which the pure
embedding reflects by construction. -/
def stripDocument (doc : Document) : Document :=
  ⟨doc.definitions.map stripDef⟩

/-- Number of directives with a given name in a directive list. -/
def countInDirs (nm : String) (ds : List Directive) : Nat :=
  (ds.filter (fun d => d.name == nm)).length

mutual

/-- Number of directives with a given name anywhere in a selection node. -/
def countInSel (nm : String) : Selection → Nat
  | Selection.field _ _ ds sub => countInDirs nm ds + countInSels nm sub
  | Selection.inlineFragment ds sub => countInDirs nm ds + countInSels nm sub
  | Selection.fragmentSpread _ ds => countInDirs nm ds

/-- Number of directives with a given name anywhere in a selection list. -/
def countInSels (nm : String) : Selections → Nat
  | Selections.nil => 0
  | Selections.cons s rest => countInSel nm s + countInSels nm rest

end

/-- Number of directives with a given name anywhere in a definition. -/
def countInDef (nm : String) : Definition → Nat
  | Definition.operationDef ds sels => countInDirs nm ds + countInSels nm sels
  | Definition.fragmentDef fd => countInDirs nm fd.directives + countInSels nm fd.selections

/-- Number of directives with a given name anywhere in a document. -/
def countInDoc (nm : String) (doc : Document) : Nat :=
  (doc.definitions.map (countInDef nm)).sum

mutual

/-- The selection node with every directive list erased, the directive-free
skeleton that captures names, aliases and nesting structure. -/
def eraseSel : Selection → Selection
  | Selection.field n a _ sub => Selection.field n a [] (eraseSels sub)
  | Selection.inlineFragment _ sub => Selection.inlineFragment [] (eraseSels sub)
  | Selection.fragmentSpread n _ => Selection.fragmentSpread n []

/-- The selection list with every directive list erased. -/
def eraseSels : Selections → Selections
  | Selections.nil => Selections.nil
  | Selections.cons s rest => Selections.cons (eraseSel s) (eraseSels rest)

end

/-- The definition with every directive list erased. -/
def eraseDef : Definition → Definition
  | Definition.operationDef _ sels => Definition.operationDef [] (eraseSels sels)
  | Definition.fragmentDef fd =>
      Definition.fragmentDef ⟨fd.name, fd.typeCond, [], eraseSels fd.selections⟩

/-- The document with every directive list erased. -/
def eraseDoc (doc : Document) : Document :=
  ⟨doc.definitions.map eraseDef⟩

/-- The fragment table of a document, embedding lines 52 to 57 of the
source: every fragment definition is recorded under its name, a later
definition of the same name overwriting an earlier one. -/
def collectFragments (doc : Document) : List (String × FragmentDef) :=
  doc.definitions.foldl
    (fun acc d =>
      match d with
      | Definition.fragmentDef fd => setA acc fd.name fd
      | _ => acc) []

/-- The first operation definition of the document, embedding lines 212 to
214 of the source. -/
def findOperation : List Definition → Option Selections
  | [] => none
  | Definition.operationDef _ sels :: _ => some sels
  | _ :: rest => findOperation rest

/-- The response key of a field: its alias when present, else its name. -/
def respKey (name : String) (al : Option String) : String :=
  al.getD name

mutual

/-- Embeds lines 159 to 209 of the source, the recursive processData
helper. A falsy value returns immediately; an array is processed element by
element against the same selection set; an object iterates the selections;
anything else is ignored. Fuel decreases on every call so the functions are
total; a document with cyclically recursive fragments, which GraphQL
validation forbids, would make the source recurse forever, and exhausted
fuel returns the empty result. -/
def processData (frags : List (String × FragmentDef)) :
    Nat → Value → Selections → Out
  | 0, _, _ => Out.empty
  | Nat.succ n, data, sels =>
      if truthy data = false then Out.empty
      else
        match data with
        | Value.varr items => processItems frags n items sels
        | Value.vobj fields => processSels frags n fields sels
        | _ => Out.empty

/-- The per-element loop of processData over an array value; an exception
thrown for one element aborts the remaining elements. -/
def processItems (frags : List (String × FragmentDef)) :
    Nat → List Value → Selections → Out
  | 0, _, _ => Out.empty
  | Nat.succ n, items, sels =>
      match items with
      | [] => Out.empty
      | it :: rest =>
          Out.seq (processData frags n it sels) (processItems frags n rest sels)

/-- The loop of processData over the selections of an object value; an
exception thrown for one selection aborts the remaining selections. -/
def processSels (frags : List (String × FragmentDef)) :
    Nat → List (String × Value) → Selections → Out
  | 0, _, _ => Out.empty
  | Nat.succ n, fields, sels =>
      match sels with
      | Selections.nil => Out.empty
      | Selections.cons s rest =>
          Out.seq (processSel frags n fields s) (processSels frags n fields rest)

/-- One selection against an object value. A field reads its response key,
applies its own directives to the child value, then recurses when the child
value is truthy. An inline fragment recurses on the same object. A fragment
spread resolves the name in the fragment table; an unknown name is silently
skipped; a found fragment has the directives of its definition applied to
the current value, then its selection set is traversed with that same
value; the directives attached at the spread site are never read. -/
def processSel (frags : List (String × FragmentDef)) :
    Nat → List (String × Value) → Selection → Out
  | 0, _, _ => Out.empty
  | Nat.succ n, fields, s =>
      match s with
      | Selection.field name al dirs sub =>
          let fieldData := lookupField fields (respKey name al)
          Out.seq (processDirectives dirs fieldData)
            (if truthy fieldData then processData frags n fieldData sub
             else Out.empty)
      | Selection.inlineFragment _ sub =>
          processData frags n (Value.vobj fields) sub
      | Selection.fragmentSpread nm _ =>
          match getA frags nm with
          | none => Out.empty
          | some fd =>
              Out.seq (processDirectives fd.directives (Value.vobj fields))
                (processData frags n (Value.vobj fields) fd.selections)

end

/-- Embeds lines 218 to 247 of the source: one root selection processed
against the top-level result value. The root loop duplicates the field
logic of processData but reads properties directly off the result value,
and a root fragment spread applies the directives of the definition to the
whole result value. -/
def processRootSel (frags : List (String × FragmentDef)) (n : Nat)
    (data : Value) : Selection → Out
  | Selection.field name al dirs sub =>
      let fieldData := getProp data (respKey name al)
      Out.seq (processDirectives dirs fieldData)
        (if truthy fieldData then processData frags n fieldData sub
         else Out.empty)
  | Selection.fragmentSpread nm _ =>
      match getA frags nm with
      | none => Out.empty
      | some fd =>
          Out.seq (processDirectives fd.directives data)
            (processData frags n data fd.selections)
  | Selection.inlineFragment _ sub => processData frags n data sub

/-- The loop over the root selections of the operation definition. -/
def processRootSels (frags : List (String × FragmentDef)) (n : Nat)
    (data : Value) : Selections → Out
  | Selections.nil => Out.empty
  | Selections.cons s rest =>
      Out.seq (processRootSel frags n data s) (processRootSels frags n data rest)

/-- Embeds the response handler installed by tinyBaseExchange, lines 44 to
248 of the source: a result without data is a no-op; otherwise the fragment
table is built, the operation definition located, and its root selections
are processed against the result data. -/
def reconcile (fuel : Nat) (doc : Document) (resultData : Value) : Out :=
  if truthy resultData = false then Out.empty
  else
    match findOperation doc.definitions with
    | none => Out.empty
    | some sels => processRootSels (collectFragments doc) fuel resultData sels

/-- Looking a key up right after setting it yields the new value. -/
theorem getA_setA_self {α : Type} (m : List (String × α)) (k : String) (v : α) :
    getA (setA m k v) k = some v := by
  induction m with
  | nil => simp [setA, getA]
  | cons kv rest ih =>
      obtain ⟨k0, v0⟩ := kv
      by_cases h : k0 = k
      · simp [setA, getA, h]
      · simp [setA, getA, h, ih]

/-- Setting one key leaves the value of every other key unchanged. -/
theorem getA_setA_ne {α : Type} (m : List (String × α)) (k : String) (v : α)
    (k2 : String) (h : k ≠ k2) : getA (setA m k v) k2 = getA m k2 := by
  induction m with
  | nil => simp [setA, getA, h]
  | cons kv rest ih =>
      obtain ⟨k0, v0⟩ := kv
      by_cases h0 : k0 = k
      · subst h0
        simp [setA, getA, h]
      · simp [setA, getA, h0, ih]

/-- A key that is absent from the key list is absent from the lookup. -/
theorem getA_eq_none_of_not_mem {α : Type} (m : List (String × α)) (k : String)
    (h : k ∉ m.map Prod.fst) : getA m k = none := by
  induction m with
  | nil => rfl
  | cons kv rest ih =>
      obtain ⟨k0, v0⟩ := kv
      simp only [List.map_cons, List.mem_cons] at h
      push_neg at h
      have hne : k0 ≠ k := fun hh => h.1 hh.symm
      simp [getA, hne, ih h.2]

/-- Deleting a key makes its lookup fail. -/
theorem getA_delA_self {α : Type} (m : List (String × α)) (k : String) :
    getA (delA m k) k = none := by
  induction m with
  | nil => rfl
  | cons kv rest ih =>
      obtain ⟨k0, v0⟩ := kv
      by_cases h : k0 = k
      · simpa [delA, h] using ih
      · simpa [delA, getA, h] using ih

/-- Merging cells that do not mention a key leaves that key at its previous
value. -/
theorem getA_mergeCells_none (old cells : List (String × Value)) (k : String)
    (h : getA cells k = none) : getA (mergeCells old cells) k = getA old k := by
  induction cells generalizing old with
  | nil => rfl
  | cons kv rest ih =>
      obtain ⟨k0, v0⟩ := kv
      by_cases h0 : k0 = k
      · simp [getA, h0] at h
      · simp only [getA, h0, if_neg] at h
        have : getA ((k0, v0) :: rest) k = getA rest k := by simp [getA, h0]
        have hrec := ih (setA old k0 v0) (by simpa [getA, h0] using h)
        calc getA (mergeCells old ((k0, v0) :: rest)) k
            = getA (mergeCells (setA old k0 v0) rest) k := rfl
          _ = getA (setA old k0 v0) k := hrec
          _ = getA old k := getA_setA_ne _ _ _ _ h0

/-- Merging cells with distinct keys writes the looked-up value of every
mentioned key. -/
theorem getA_mergeCells_some (old cells : List (String × Value)) (k : String)
    (v : Value) (hnd : (cells.map Prod.fst).Nodup) (h : getA cells k = some v) :
    getA (mergeCells old cells) k = some v := by
  induction cells generalizing old with
  | nil => simp [getA] at h
  | cons kv rest ih =>
      obtain ⟨k0, v0⟩ := kv
      simp only [List.map_cons, List.nodup_cons] at hnd
      by_cases h0 : k0 = k
      · subst h0
        simp only [getA, beq_self_eq_true, if_true] at h
        have hnone : getA rest k0 = none :=
          getA_eq_none_of_not_mem rest k0 hnd.1
        calc getA (mergeCells old ((k0, v0) :: rest)) k0
            = getA (mergeCells (setA old k0 v0) rest) k0 := rfl
          _ = getA (setA old k0 v0) k0 := getA_mergeCells_none _ _ _ hnone
          _ = some v0 := getA_setA_self _ _ _
          _ = some v := by rw [h]
      · have hrest : getA rest k = some v := by simpa [getA, h0] using h
        exact ih (setA old k0 v0) hnd.2 hrest

/-- Filtering cannot make an absent key present. -/
theorem getA_filter_none {α : Type} (m : List (String × α))
    (p : String × α → Bool) (k : String) (h : getA m k = none) :
    getA (m.filter p) k = none := by
  induction m with
  | nil => rfl
  | cons kv rest ih =>
      obtain ⟨k0, v0⟩ := kv
      by_cases h0 : k0 = k
      · simp [getA, h0] at h
      · have hrest : getA rest k = none := by simpa [getA, h0] using h
        by_cases hp : p (k0, v0)
        · simp [List.filter_cons, hp, getA, h0, ih hrest]
        · simp [List.filter_cons, hp, ih hrest]

/-- With distinct keys, a kept binding survives filtering with its value. -/
theorem getA_filter_some {α : Type} (m : List (String × α))
    (p : String × α → Bool) (k : String) (v : α)
    (hnd : (m.map Prod.fst).Nodup) (h : getA m k = some v)
    (hp : p (k, v) = true) : getA (m.filter p) k = some v := by
  induction m with
  | nil => simp [getA] at h
  | cons kv rest ih =>
      obtain ⟨k0, v0⟩ := kv
      simp only [List.map_cons, List.nodup_cons] at hnd
      by_cases h0 : k0 = k
      · subst h0
        simp only [getA, beq_self_eq_true, if_true] at h
        have hv : v0 = v := Option.some_inj.mp h
        subst hv
        simp [List.filter_cons, hp, getA]
      · have hrest : getA rest k = some v := by simpa [getA, h0] using h
        by_cases hq : p (k0, v0)
        · simp [List.filter_cons, hq, getA, h0, ih hnd.2 hrest]
        · simp [List.filter_cons, hq, ih hnd.2 hrest]

/-- Filtering preserves distinctness of the keys. -/
theorem nodup_keys_filter {α : Type} (m : List (String × α))
    (p : String × α → Bool) (hnd : (m.map Prod.fst).Nodup) :
    ((m.filter p).map Prod.fst).Nodup :=
  List.Nodup.sublist (List.Sublist.map Prod.fst (List.filter_sublist m)) hnd

/-- A mentioned scalar cell is present with its value after a partial row
write. -/
theorem getCell_setPartial_some (st : Store) (t id k : String)
    (fields : List (String × Value)) (v : Value)
    (hnd : (fields.map Prod.fst).Nodup)
    (hk : getA fields k = some v) (hs : isScalarCell v = true) :
    getCell (setPartialRowStore st t id fields) t id k = some v := by
  have hvk : getA (fields.filter (fun kv => isScalarCell kv.2)) k = some v :=
    getA_filter_some fields _ k v hnd hk hs
  have hvne : (fields.filter (fun kv => isScalarCell kv.2)).isEmpty = false := by
    cases hv : fields.filter (fun kv => isScalarCell kv.2) with
    | nil => rw [hv] at hvk; simp [getA] at hvk
    | cons a b => simp
  unfold setPartialRowStore
  simp only [hvne, Bool.false_eq_true, if_false]
  unfold getCell storeGetRow
  simp [getA_setA_self]
  exact getA_mergeCells_some _ _ k v
    (nodup_keys_filter fields _ hnd) hvk

/-- A cell whose key the written cell map does not mention keeps its
previous value across a partial row write. -/
theorem getCell_setPartial_preserve (st : Store) (t id k : String)
    (fields : List (String × Value)) (hk : getA fields k = none) :
    getCell (setPartialRowStore st t id fields) t id k = getCell st t id k := by
  have hvk : getA (fields.filter (fun kv => isScalarCell kv.2)) k = none :=
    getA_filter_none fields _ k hk
  unfold setPartialRowStore
  cases hv : (fields.filter (fun kv => isScalarCell kv.2)).isEmpty with
  | true => simp [hv]
  | false =>
      simp only [hv, Bool.false_eq_true, if_false]
      unfold getCell storeGetRow
      simp [getA_setA_self]
      rw [getA_mergeCells_none _ _ _ hvk]
      cases h1 : getA st.tables t with
      | none => simp [getA]
      | some tbl =>
          cases h2 : getA tbl id with
          | none => simp [h2, getA]
          | some r => simp [h2]

/-- Deleting a row makes hasRow report false for it. -/
theorem storeHasRow_delRow_self (st : Store) (t id : String) :
    storeHasRow (delRowStore st t id) t id = false := by
  unfold delRowStore
  cases h1 : getA st.tables t with
  | none => simp [storeHasRow, storeGetRow, h1]
  | some tbl =>
      simp [storeHasRow, storeGetRow, getA_setA_self, getA_delA_self]

/-- The table name resolution rule that both directive handlers implement,
stated once for the theorems: a string literal is used verbatim, an enum
symbol is lowercased, any other kind fails. -/
def resolveTableName : ValueNode → Option String
  | ValueNode.stringValue s => some s
  | ValueNode.enumValue s => some (asciiLower s)
  | ValueNode.otherValue _ => none

/-- Whether a value is an array, the Array.isArray test of the source. -/
def isArr : Value → Bool
  | Value.varr _ => true
  | _ => false

/-- C1: for a merge directive whose table argument is a string literal and
whose in-scope value is an object with a string id, the trace holds exactly
one setPartialRow event on that table and id whose cell map is the whole
field list (hence all scalar fields), and after applying the trace to any
store every scalar field is present as a cell while every cell of the row
whose key the cell map does not mention keeps its previous value: a partial
merge, not an overwrite. -/
theorem mergeRow_string_upsert (t idStr : String)
    (fields : List (String × Value)) (st : Store)
    (hid : getA fields "id" = some (Value.vstr idStr))
    (hne : idStr ≠ "")
    (hnd : (fields.map Prod.fst).Nodup) :
    processDirectives [mergeDirOn (ValueNode.stringValue t)] (Value.vobj fields)
      = ⟨[Event.setPartialRow t idStr fields], none⟩
    ∧ (∀ k v, getA fields k = some v → isScalarCell v = true →
        getCell (applyEvents st
          (processDirectives [mergeDirOn (ValueNode.stringValue t)]
            (Value.vobj fields)).events) t idStr k = some v)
    ∧ (∀ k, getA fields k = none →
        getCell (applyEvents st
          (processDirectives [mergeDirOn (ValueNode.stringValue t)]
            (Value.vobj fields)).events) t idStr k = getCell st t idStr k) := by
  have h1 : processDirectives [mergeDirOn (ValueNode.stringValue t)]
      (Value.vobj fields) = ⟨[Event.setPartialRow t idStr fields], none⟩ := by
    simp [processDirectives, mergeDirOn, isNamedDir, findTableArg, List.find?,
      mergeApply, deletePhase, Out.seq, Out.empty, lookupField, hid, truthy, hne,
      jsString]
  refine ⟨h1, ?_, ?_⟩
  · intro k v hk hs
    rw [h1]
    show getCell (setPartialRowStore st t idStr fields) t idStr k = some v
    exact getCell_setPartial_some st t idStr k fields v hnd hk hs
  · intro k hk
    rw [h1]
    show getCell (setPartialRowStore st t idStr fields) t idStr k
        = getCell st t idStr k
    exact getCell_setPartial_preserve st t idStr k fields hk

/-- C1 witness: the theorem applied to the end-to-end example of the spec,
table users and the row with id 1 and name Alice, starting from the empty
store. -/
theorem mergeRow_string_upsert_witness :
    processDirectives [mergeDirOn (ValueNode.stringValue "users")]
      (Value.vobj [("id", Value.vstr "1"), ("name", Value.vstr "Alice")])
      = ⟨[Event.setPartialRow "users" "1"
           [("id", Value.vstr "1"), ("name", Value.vstr "Alice")]], none⟩ :=
  (mergeRow_string_upsert "users" "1"
    [("id", Value.vstr "1"), ("name", Value.vstr "Alice")] Store.empty
    (by rfl) (by decide) (by decide)).1

/-- C2 counterexample: a delete directive whose in-scope value is null, a
non-array value, performs no delRow call at all, while the claim requires
one call with the string coercion of the value. -/
theorem deleteRow_falsy_counterexample :
    (processDirectives [deleteDirOn (ValueNode.stringValue "t")]
      Value.vnull).events = [] := by rfl

/-- C2 (amended): for a delete directive with a resolved table name, an
array value deletes one row per element with the String coercion of the
element; a truthy non-array value deletes exactly the single row named by
its String coercion, after which hasRow is false for it; a falsy value
(null, undefined, false, zero or the empty string) performs no deletion at
all. -/
theorem deleteRow_coercion (tv : ValueNode) (tn : String) (st : Store)
    (hres : resolveTableName tv = some tn) :
    (∀ xs, processDirectives [deleteDirOn tv] (Value.varr xs)
        = ⟨xs.map (fun i => Event.delRow tn (jsString i)), none⟩)
    ∧ (∀ data, truthy data = true → isArr data = false →
        processDirectives [deleteDirOn tv] data
          = ⟨[Event.delRow tn (jsString data)], none⟩
        ∧ storeHasRow (applyEvents st [Event.delRow tn (jsString data)])
            tn (jsString data) = false)
    ∧ (∀ data, truthy data = false →
        processDirectives [deleteDirOn tv] data = Out.empty) := by
  have hstore : ∀ id, storeHasRow (applyEvents st [Event.delRow tn id]) tn id
      = false := by
    intro id
    show storeHasRow (delRowStore st tn id) tn id = false
    exact storeHasRow_delRow_self st tn id
  cases tv with
  | stringValue s =>
      have hs : s = tn := by simpa [resolveTableName] using hres
      subst hs
      refine ⟨?_, ?_, ?_⟩
      · intro xs
        simp [processDirectives, deleteDirOn, isNamedDir, findTableArg,
          List.find?, deletePhase, deleteApply, truthy]
      · intro data ht ha
        refine ⟨?_, hstore _⟩
        cases data <;> simp_all [processDirectives, deleteDirOn, isNamedDir,
          findTableArg, List.find?, deletePhase, deleteApply, truthy, isArr]
      · intro data ht
        cases data <;> simp_all [processDirectives, deleteDirOn, isNamedDir,
          findTableArg, List.find?, deletePhase, deleteApply, truthy, Out.empty]
  | enumValue s =>
      have hs : asciiLower s = tn := by simpa [resolveTableName] using hres
      subst hs
      refine ⟨?_, ?_, ?_⟩
      · intro xs
        simp [processDirectives, deleteDirOn, isNamedDir, findTableArg,
          List.find?, deletePhase, deleteApply, truthy]
      · intro data ht ha
        refine ⟨?_, hstore _⟩
        cases data <;> simp_all [processDirectives, deleteDirOn, isNamedDir,
          findTableArg, List.find?, deletePhase, deleteApply, truthy, isArr]
      · intro data ht
        cases data <;> simp_all [processDirectives, deleteDirOn, isNamedDir,
          findTableArg, List.find?, deletePhase, deleteApply, truthy, Out.empty]
  | otherValue k => simp [resolveTableName] at hres

/-- C2 witness: the amended theorem applied to table t and the single id
string 7 of the spec example, starting from the empty store: one delRow on
the pair t and 7 and hasRow false afterward. -/
theorem deleteRow_coercion_witness :
    processDirectives [deleteDirOn (ValueNode.stringValue "t")] (Value.vstr "7")
      = ⟨[Event.delRow "t" "7"], none⟩
    ∧ storeHasRow (applyEvents Store.empty [Event.delRow "t" "7"]) "t" "7"
      = false :=
  ((deleteRow_coercion (ValueNode.stringValue "t") "t" Store.empty
    (by rfl)).2.1 (Value.vstr "7") (by decide) (by decide))

/-- C3: the table name of a merge or delete mutation is resolved from the
table argument: a string literal is used verbatim and an enum symbol is
ASCII lowercased, and the resolved name is the table of the emitted store
mutation, for both directive kinds. -/
theorem tableName_resolution (s r idStr : String)
    (fields : List (String × Value))
    (hid : getA fields "id" = some (Value.vstr idStr))
    (hne : idStr ≠ "") (hr : r ≠ "") :
    processDirectives [mergeDirOn (ValueNode.stringValue s)] (Value.vobj fields)
      = ⟨[Event.setPartialRow s idStr fields], none⟩
    ∧ processDirectives [mergeDirOn (ValueNode.enumValue s)] (Value.vobj fields)
      = ⟨[Event.setPartialRow (asciiLower s) idStr fields], none⟩
    ∧ processDirectives [deleteDirOn (ValueNode.stringValue s)] (Value.vstr r)
      = ⟨[Event.delRow s r], none⟩
    ∧ processDirectives [deleteDirOn (ValueNode.enumValue s)] (Value.vstr r)
      = ⟨[Event.delRow (asciiLower s) r], none⟩ := by
  refine ⟨?_, ?_, ?_, ?_⟩
  · simp [processDirectives, mergeDirOn, isNamedDir, findTableArg, List.find?,
      mergeApply, deletePhase, Out.seq, Out.empty, lookupField, hid, truthy, hne,
      jsString]
  · simp [processDirectives, mergeDirOn, isNamedDir, findTableArg, List.find?,
      mergeApply, deletePhase, Out.seq, Out.empty, lookupField, hid, truthy, hne,
      jsString]
  · simp [processDirectives, deleteDirOn, isNamedDir, findTableArg, List.find?,
      deletePhase, deleteApply, truthy, hr, jsString]
  · simp [processDirectives, deleteDirOn, isNamedDir, findTableArg, List.find?,
      deletePhase, deleteApply, truthy, hr, jsString]

/-- C3 witness: the resolution theorem at the enum symbol Post, whose merge
mutation lands in table post exactly as the spec example requires. -/
theorem tableName_resolution_witness :
    processDirectives [mergeDirOn (ValueNode.enumValue "Post")]
      (Value.vobj [("id", Value.vstr "1")])
      = ⟨[Event.setPartialRow "post" "1" [("id", Value.vstr "1")]], none⟩ :=
  (tableName_resolution "Post" "7" "1" [("id", Value.vstr "1")]
    (by rfl) (by decide) (by decide)).2.1

/-- C5: resolving a fragment spread applies the directives of the referenced
fragment definition exactly once, to the value in scope at the spread site,
and then recurses into the selection set of the definition with that same
value; the trace of the spread is precisely the sequencing of those two
steps. -/
theorem fragmentSpread_definition_directives
    (frags : List (String × FragmentDef)) (n : Nat)
    (fields : List (String × Value)) (nm : String)
    (spreadDirs : List Directive) (fd : FragmentDef)
    (hf : getA frags nm = some fd) :
    processSel frags (Nat.succ n) fields (Selection.fragmentSpread nm spreadDirs)
      = Out.seq (processDirectives fd.directives (Value.vobj fields))
          (processData frags n (Value.vobj fields) fd.selections) := by
  simp [processSel, hf]

/-- C5 witness: a spread of PostFragment, whose definition carries a merge
directive on table posts, applied where the in-scope value is the object
with id 1. -/
theorem fragmentSpread_definition_directives_witness :
    processSel
      [("PostFragment",
        ⟨"PostFragment", "Post", [mergeDirOn (ValueNode.stringValue "posts")],
          Selections.nil⟩)] 1 [("id", Value.vstr "1")]
      (Selection.fragmentSpread "PostFragment" [])
      = Out.seq
          (processDirectives [mergeDirOn (ValueNode.stringValue "posts")]
            (Value.vobj [("id", Value.vstr "1")]))
          (processData
            [("PostFragment",
              ⟨"PostFragment", "Post", [mergeDirOn (ValueNode.stringValue "posts")],
                Selections.nil⟩)] 0
            (Value.vobj [("id", Value.vstr "1")]) Selections.nil) :=
  fragmentSpread_definition_directives _ 0 _ "PostFragment" []
    ⟨"PostFragment", "Post", [mergeDirOn (ValueNode.stringValue "posts")],
      Selections.nil⟩ (by rfl)

/-- C6: evaluation of the code at the failing input. A merge directive over
an array whose first element is null throws a TypeError while reading the
id property of null: no warning is emitted for that element and the
remaining element with a valid id is never merged, contradicting the
claimed skip-with-warning behavior; the second conjunct shows that an array
of non-null elements does behave as the claim describes, with a warning and
no mutation for an element lacking id and the surrounding elements merged. -/
theorem mergeRow_null_element_throws :
    processDirectives [mergeDirOn (ValueNode.stringValue "t")]
      (Value.varr [Value.vnull, Value.vobj [("id", Value.vstr "1")]])
      = ⟨[], some nullIdError⟩
    ∧ processDirectives [mergeDirOn (ValueNode.stringValue "t")]
        (Value.varr [Value.vobj [("id", Value.vstr "1")],
          Value.vobj [("title", Value.vstr "x")],
          Value.vobj [("id", Value.vstr "2")]])
      = ⟨[Event.setPartialRow "t" "1" [("id", Value.vstr "1")],
          Event.warnLog
            "[TinyBase Exchange] Skipping row without id field in table t",
          Event.setPartialRow "t" "2" [("id", Value.vstr "2")]], none⟩ :=
  ⟨rfl, rfl⟩

/-- C7 counterexample: a well-formed delete directive alone deletes its row,
but the same delete directive on a node that also carries a merge directive
lacking its table argument is skipped entirely: only the error log of the
malformed merge is emitted, so the malformedness of one directive does
alter whether the other is applied. -/
theorem bothDirectives_counterexample :
    (processDirectives [deleteDirOn (ValueNode.stringValue "t")]
      (Value.vstr "7")).events = [Event.delRow "t" "7"]
    ∧ (processDirectives [Directive.mk "dbMergeRow" [],
        deleteDirOn (ValueNode.stringValue "t")] (Value.vstr "7")).events
      = [Event.errorLog
          "[TinyBase Exchange] @dbMergeRow directive is missing required table argument"] :=
  ⟨rfl, rfl⟩

/-- C7 (amended): on a node carrying both directives, the merge is processed
first and then the delete, each resolving its own table argument, and a
malformed delete does not affect the merge; but a merge directive whose
table argument is missing aborts directive processing for the node, so the
delete directive is then skipped as well. -/
theorem bothDirectives_merge_then_delete (t1 t2 : String)
    (fields : List (String × Value)) (idStr : String)
    (hid : getA fields "id" = some (Value.vstr idStr)) (hne : idStr ≠ "") :
    processDirectives
      [mergeDirOn (ValueNode.stringValue t1), deleteDirOn (ValueNode.stringValue t2)]
      (Value.vobj fields)
      = ⟨[Event.setPartialRow t1 idStr fields,
          Event.delRow t2 "[object Object]"], none⟩
    ∧ processDirectives
        [mergeDirOn (ValueNode.stringValue t1), Directive.mk "dbDeleteRow" []]
        (Value.vobj fields)
      = ⟨[Event.setPartialRow t1 idStr fields,
          Event.errorLog
            "[TinyBase Exchange] @dbDeleteRow directive is missing required table argument"],
          none⟩
    ∧ processDirectives
        [Directive.mk "dbMergeRow" [], deleteDirOn (ValueNode.stringValue t2)]
        (Value.vobj fields)
      = ⟨[Event.errorLog
            "[TinyBase Exchange] @dbMergeRow directive is missing required table argument"],
          none⟩ := by
  refine ⟨?_, ?_, ?_⟩
  · simp [processDirectives, mergeDirOn, deleteDirOn, isNamedDir, findTableArg,
      List.find?, mergeApply, deletePhase, deleteApply, Out.seq, Out.empty,
      lookupField, hid, truthy, hne, jsString]
  · simp [processDirectives, mergeDirOn, isNamedDir, findTableArg,
      List.find?, mergeApply, deletePhase, Out.seq, Out.empty,
      lookupField, hid, truthy, hne, jsString]
  · simp [processDirectives, deleteDirOn, isNamedDir, findTableArg, List.find?]

/-- C7 witness: both well-formed directives on one node with the object
value carrying id 9: the merge on table a is followed by the delete on
table b of the String coercion of the object. -/
theorem bothDirectives_merge_then_delete_witness :
    processDirectives
      [mergeDirOn (ValueNode.stringValue "a"), deleteDirOn (ValueNode.stringValue "b")]
      (Value.vobj [("id", Value.vstr "9")])
      = ⟨[Event.setPartialRow "a" "9" [("id", Value.vstr "9")],
          Event.delRow "b" "[object Object]"], none⟩ :=
  (bothDirectives_merge_then_delete "a" "b" [("id", Value.vstr "9")] "9"
    (by rfl) (by decide)).1

/-- C8: a result that carries no data, which the source detects by the
falsiness of result.data, makes the whole reconciliation a no-op: the trace
is empty and applying it leaves any store unchanged. -/
theorem noData_noop (fuel : Nat) (doc : Document) (data : Value) (st : Store)
    (h : truthy data = false) :
    reconcile fuel doc data = Out.empty
    ∧ applyEvents st (reconcile fuel doc data).events = st := by
  have h1 : reconcile fuel doc data = Out.empty := by simp [reconcile, h]
  exact ⟨h1, by rw [h1]; rfl⟩

/-- C8 witness: the no-op theorem at a null result over the empty document
and the empty store. -/
theorem noData_noop_witness :
    reconcile 0 ⟨[]⟩ Value.vnull = Out.empty
    ∧ applyEvents Store.empty (reconcile 0 ⟨[]⟩ Value.vnull).events
      = Store.empty :=
  noData_noop 0 ⟨[]⟩ Value.vnull Store.empty (by rfl)

/-- The document of the C9 failing input: an operation with two root
fields, field a and field b, each carrying a well-formed merge directive on
table t. -/
def nullArrayDoc : Document :=
  ⟨[Definition.operationDef []
      (Selections.cons
        (Selection.field "a" none [mergeDirOn (ValueNode.stringValue "t")]
          Selections.nil)
        (Selections.cons
          (Selection.field "b" none [mergeDirOn (ValueNode.stringValue "t")]
            Selections.nil)
          Selections.nil))]⟩

/-- The result data of the C9 failing input: field a is an array containing
null, field b is a well-formed object with id 2. -/
def nullArrayData : Value :=
  Value.vobj [("a", Value.varr [Value.vnull]),
              ("b", Value.vobj [("id", Value.vstr "2")])]

/-- C9: evaluation of the code at the failing input. Reconciling a response
whose first root field holds an array containing null under a merge
directive throws a TypeError that propagates to the caller of the
reconciliation, and the correctly-directived sibling field b is never
processed: the trace holds no mutation at all, in particular no upsert of
row 2, contradicting the claimed absorb-all-failures policy that the spec
states. -/
theorem reconcile_throws_on_null_element :
    reconcile 5 nullArrayDoc nullArrayData = ⟨[], some nullIdError⟩ := by rfl

/-- Stripping leaves no directive with a recognized database name in a
directive list. -/
theorem countInDirs_strip_db (nm : String) (h : isDbName nm = true)
    (ds : List Directive) : countInDirs nm (stripDirs ds) = 0 := by
  induction ds with
  | nil => rfl
  | cons d rest ih =>
      cases hd : isDbName d.name with
      | true =>
          have h1 : stripDirs (d :: rest) = stripDirs rest := by
            simp [stripDirs, List.filter_cons, hd]
          rw [h1]; exact ih
      | false =>
          have hne : (d.name == nm) = false := by
            cases hb : d.name == nm with
            | false => rfl
            | true =>
                have he : d.name = nm := by simpa using hb
                rw [he, h] at hd
                exact absurd hd (by simp)
          have h1 : stripDirs (d :: rest) = d :: stripDirs rest := by
            simp [stripDirs, List.filter_cons, hd]
          have h2 : countInDirs nm (d :: stripDirs rest)
              = countInDirs nm (stripDirs rest) := by
            simp [countInDirs, List.filter_cons, hne]
          rw [h1, h2]; exact ih

/-- Stripping preserves the count of every directive whose name is not a
recognized database name. -/
theorem countInDirs_strip_other (nm : String) (h : isDbName nm = false)
    (ds : List Directive) : countInDirs nm (stripDirs ds) = countInDirs nm ds := by
  induction ds with
  | nil => rfl
  | cons d rest ih =>
      cases hd : isDbName d.name with
      | true =>
          have hne : (d.name == nm) = false := by
            cases hb : d.name == nm with
            | false => rfl
            | true =>
                have he : d.name = nm := by simpa using hb
                rw [he, h] at hd
                exact absurd hd (by simp)
          have h1 : stripDirs (d :: rest) = stripDirs rest := by
            simp [stripDirs, List.filter_cons, hd]
          have h2 : countInDirs nm (d :: rest) = countInDirs nm rest := by
            simp [countInDirs, List.filter_cons, hne]
          rw [h1, h2]; exact ih
      | false =>
          have h1 : stripDirs (d :: rest) = d :: stripDirs rest := by
            simp [stripDirs, List.filter_cons, hd]
          rw [h1]
          cases hb : d.name == nm with
          | true =>
              have h2 : countInDirs nm (d :: stripDirs rest)
                  = countInDirs nm (stripDirs rest) + 1 := by
                simp [countInDirs, List.filter_cons, hb]
              have h3 : countInDirs nm (d :: rest) = countInDirs nm rest + 1 := by
                simp [countInDirs, List.filter_cons, hb]
              rw [h2, h3, ih]
          | false =>
              have h2 : countInDirs nm (d :: stripDirs rest)
                  = countInDirs nm (stripDirs rest) := by
                simp [countInDirs, List.filter_cons, hb]
              have h3 : countInDirs nm (d :: rest) = countInDirs nm rest := by
                simp [countInDirs, List.filter_cons, hb]
              rw [h2, h3, ih]

/-- Stripping leaves no database directive in any selection node or list. -/
theorem stripSel_db_zero (nm : String) (h : isDbName nm = true) :
    (∀ s, countInSel nm (stripSel s) = 0)
    ∧ (∀ l, countInSels nm (stripSels l) = 0) := by
  refine selInduction ?_ ?_ ?_ ?_ ?_
  · intro n a ds sub ihsub
    simp [stripSel, countInSel, countInDirs_strip_db nm h, ihsub]
  · intro ds sub ihsub
    simp [stripSel, countInSel, countInDirs_strip_db nm h, ihsub]
  · intro n ds
    simp [stripSel, countInSel, countInDirs_strip_db nm h]
  · rfl
  · intro s l ihs ihl
    simp [stripSels, countInSels, ihs, ihl]

/-- Stripping preserves the count of every other directive in any selection
node or list. -/
theorem stripSel_other_eq (nm : String) (h : isDbName nm = false) :
    (∀ s, countInSel nm (stripSel s) = countInSel nm s)
    ∧ (∀ l, countInSels nm (stripSels l) = countInSels nm l) := by
  refine selInduction ?_ ?_ ?_ ?_ ?_
  · intro n a ds sub ihsub
    simp [stripSel, countInSel, countInDirs_strip_other nm h, ihsub]
  · intro ds sub ihsub
    simp [stripSel, countInSel, countInDirs_strip_other nm h, ihsub]
  · intro n ds
    simp [stripSel, countInSel, countInDirs_strip_other nm h]
  · rfl
  · intro s l ihs ihl
    simp [stripSels, countInSels, ihs, ihl]

/-- Stripping changes nothing but directive lists: the directive-erased
skeleton of a selection node or list is unchanged. -/
theorem stripSel_erase_eq :
    (∀ s, eraseSel (stripSel s) = eraseSel s)
    ∧ (∀ l, eraseSels (stripSels l) = eraseSels l) := by
  refine selInduction ?_ ?_ ?_ ?_ ?_
  · intro n a ds sub ihsub
    simp [stripSel, eraseSel, ihsub]
  · intro ds sub ihsub
    simp [stripSel, eraseSel, ihsub]
  · intro n ds
    simp [stripSel, eraseSel]
  · rfl
  · intro s l ihs ihl
    simp [stripSels, eraseSels, ihs, ihl]

/-- Stripping leaves no database directive in a definition. -/
theorem stripDef_db_zero (nm : String) (h : isDbName nm = true)
    (d : Definition) : countInDef nm (stripDef d) = 0 := by
  cases d with
  | operationDef ds sels =>
      simp [stripDef, countInDef, countInDirs_strip_db nm h,
        (stripSel_db_zero nm h).2]
  | fragmentDef fd =>
      simp [stripDef, countInDef, countInDirs_strip_db nm h,
        (stripSel_db_zero nm h).2]

/-- Stripping preserves the count of every other directive in a
definition. -/
theorem stripDef_other_eq (nm : String) (h : isDbName nm = false)
    (d : Definition) : countInDef nm (stripDef d) = countInDef nm d := by
  cases d with
  | operationDef ds sels =>
      simp [stripDef, countInDef, countInDirs_strip_other nm h,
        (stripSel_other_eq nm h).2]
  | fragmentDef fd =>
      simp [stripDef, countInDef, countInDirs_strip_other nm h,
        (stripSel_other_eq nm h).2]

/-- Stripping preserves the directive-erased skeleton of a definition. -/
theorem stripDef_erase_eq (d : Definition) :
    eraseDef (stripDef d) = eraseDef d := by
  cases d with
  | operationDef ds sels => simp [stripDef, eraseDef, stripSel_erase_eq.2]
  | fragmentDef fd => simp [stripDef, eraseDef, stripSel_erase_eq.2]

/-- On a definition list, stripping leaves no database directive. -/
theorem countDefs_strip_db (nm : String) (h : isDbName nm = true) :
    ∀ ds : List Definition, ((ds.map stripDef).map (countInDef nm)).sum = 0
  | [] => rfl
  | d :: rest => by
      simp only [List.map_cons, List.sum_cons, stripDef_db_zero nm h,
        countDefs_strip_db nm h rest]

/-- On a definition list, stripping preserves every other count. -/
theorem countDefs_strip_other (nm : String) (h : isDbName nm = false) :
    ∀ ds : List Definition,
      ((ds.map stripDef).map (countInDef nm)).sum = (ds.map (countInDef nm)).sum
  | [] => rfl
  | d :: rest => by
      simp only [List.map_cons, List.sum_cons, stripDef_other_eq nm h,
        countDefs_strip_other nm h rest]

/-- On a definition list, stripping preserves the erased skeletons. -/
theorem eraseDefs_strip :
    ∀ ds : List Definition, (ds.map stripDef).map eraseDef = ds.map eraseDef
  | [] => rfl
  | d :: rest => by
      simp only [List.map_cons, stripDef_erase_eq, eraseDefs_strip rest]

/-- C4: the stripper leaves no dbMergeRow and no dbDeleteRow directive at
any position of the document, preserves the occurrence count of every
directive with any other name, and preserves the directive-erased skeleton,
that is every field name, alias, argument and structural element; and being
a pure function of the document, it returns a new document and cannot
mutate its input, which in the embedding holds by construction. -/
theorem stripper_removes_only_db (doc : Document) (nm : String) :
    countInDoc "dbMergeRow" (stripDocument doc) = 0
    ∧ countInDoc "dbDeleteRow" (stripDocument doc) = 0
    ∧ (isDbName nm = false →
        countInDoc nm (stripDocument doc) = countInDoc nm doc)
    ∧ eraseDoc (stripDocument doc) = eraseDoc doc := by
  refine ⟨?_, ?_, ?_, ?_⟩
  · exact countDefs_strip_db "dbMergeRow" (by rfl) doc.definitions
  · exact countDefs_strip_db "dbDeleteRow" (by rfl) doc.definitions
  · intro h
    exact countDefs_strip_other nm h doc.definitions
  · show Document.mk ((doc.definitions.map stripDef).map eraseDef)
        = Document.mk (doc.definitions.map eraseDef)
    rw [eraseDefs_strip doc.definitions]

/-- C4 witness: the theorem at a one-field document whose field carries a
merge directive, a delete directive and an unrelated directive named other,
checking the count conjunct at the name other. -/
theorem stripper_removes_only_db_witness :
    countInDoc "dbMergeRow"
      (stripDocument
        ⟨[Definition.operationDef []
            (Selections.cons
              (Selection.field "f" none
                [mergeDirOn (ValueNode.stringValue "t"),
                 deleteDirOn (ValueNode.stringValue "t"),
                 Directive.mk "other" []] Selections.nil)
              Selections.nil)]⟩) = 0
    ∧ countInDoc "other"
        (stripDocument
          ⟨[Definition.operationDef []
              (Selections.cons
                (Selection.field "f" none
                  [mergeDirOn (ValueNode.stringValue "t"),
                   deleteDirOn (ValueNode.stringValue "t"),
                   Directive.mk "other" []] Selections.nil)
                Selections.nil)]⟩)
      = countInDoc "other"
          ⟨[Definition.operationDef []
              (Selections.cons
                (Selection.field "f" none
                  [mergeDirOn (ValueNode.stringValue "t"),
                   deleteDirOn (ValueNode.stringValue "t"),
                   Directive.mk "other" []] Selections.nil)
                Selections.nil)]⟩ :=
  ⟨(stripper_removes_only_db _ "other").1,
   (stripper_removes_only_db _ "other").2.2.1 (by rfl)⟩

/-- Whether a directive list is free of the two database directives. -/
def dbFreeDirs (ds : List Directive) : Bool :=
  ds.all (fun d => !isDbName d.name)

mutual

/-- Whether a selection node carries no database directive on any field,
inline fragment or nested selection; directives sitting on a fragment
spread itself are not constrained, since the traversal never reads them. -/
def dbFreeSel : Selection → Bool
  | Selection.field _ _ ds sub => dbFreeDirs ds && dbFreeSels sub
  | Selection.inlineFragment ds sub => dbFreeDirs ds && dbFreeSels sub
  | Selection.fragmentSpread _ _ => true

/-- Whether every node of a selection list is database-directive free in
the above sense. -/
def dbFreeSels : Selections → Bool
  | Selections.nil => true
  | Selections.cons s l => dbFreeSel s && dbFreeSels l

end

/-- Whether a fragment definition carries no database directive, on itself
or anywhere in its selections other than spread sites. -/
def dbFreeFrag (fd : FragmentDef) : Bool :=
  dbFreeDirs fd.directives && dbFreeSels fd.selections

/-- Whether a top-level definition is database-directive free other than at
spread sites. -/
def dbFreeDef : Definition → Bool
  | Definition.operationDef ds sels => dbFreeDirs ds && dbFreeSels sels
  | Definition.fragmentDef fd => dbFreeFrag fd

/-- Whether the whole document carries database directives only on fragment
spread nodes, if anywhere. -/
def dbFreeDoc (doc : Document) : Bool :=
  doc.definitions.all dbFreeDef

/-- Whether every fragment of a fragment table is database-directive
free. -/
def fragsDbFree (frags : List (String × FragmentDef)) : Bool :=
  frags.all (fun kv => dbFreeFrag kv.2)

/-- A database-directive-free list has no directive of either database
name to find. -/
theorem find_none_of_dbFree (nm : String) (h : isDbName nm = true)
    (ds : List Directive) (hf : dbFreeDirs ds = true) :
    ds.find? (isNamedDir nm) = none := by
  induction ds with
  | nil => rfl
  | cons d rest ih =>
      simp only [dbFreeDirs, List.all_cons, Bool.and_eq_true] at hf
      have hne : isNamedDir nm d = false := by
        cases hb : d.name == nm with
        | false => simp [isNamedDir, hb]
        | true =>
            have he : d.name = nm := by simpa using hb
            rw [he, h] at hf
            simp at hf
      rw [List.find?_cons_of_neg _ (by simp [hne])]
      exact ih (by simpa [dbFreeDirs] using hf.2)

/-- Processing the directives of a database-directive-free node emits
nothing at all. -/
theorem processDirectives_dbFree (ds : List Directive) (data : Value)
    (hf : dbFreeDirs ds = true) : processDirectives ds data = Out.empty := by
  unfold processDirectives
  rw [find_none_of_dbFree "dbMergeRow" (by rfl) ds hf]
  unfold deletePhase
  rw [find_none_of_dbFree "dbDeleteRow" (by rfl) ds hf]

/-- A fragment found in a database-directive-free fragment table is itself
database-directive free. -/
theorem frags_lookup_dbFree (frags : List (String × FragmentDef))
    (nm : String) (fd : FragmentDef) (hf : fragsDbFree frags = true)
    (hq : getA frags nm = some fd) : dbFreeFrag fd = true := by
  induction frags with
  | nil => simp [getA] at hq
  | cons kv rest ih =>
      obtain ⟨k0, f0⟩ := kv
      simp only [fragsDbFree, List.all_cons, Bool.and_eq_true] at hf
      by_cases h0 : k0 = nm
      · subst h0
        simp only [getA, beq_self_eq_true, if_true] at hq
        rw [← Option.some_inj.mp hq]
        exact hf.1
      · have hrest : getA rest nm = some fd := by simpa [getA, h0] using hq
        exact ih (by simpa [fragsDbFree] using hf.2) hrest

/-- Updating a database-directive-free fragment table with a
database-directive-free fragment keeps it free. -/
theorem fragsDbFree_setA (acc : List (String × FragmentDef)) (k : String)
    (fd : FragmentDef) (ha : fragsDbFree acc = true)
    (hfd : dbFreeFrag fd = true) : fragsDbFree (setA acc k fd) = true := by
  induction acc with
  | nil => simp [setA, fragsDbFree, hfd]
  | cons kv rest ih =>
      obtain ⟨k0, f0⟩ := kv
      simp only [fragsDbFree, List.all_cons, Bool.and_eq_true] at ha
      by_cases h0 : k0 = k
      · simp [setA, h0, fragsDbFree, hfd]
        simpa [fragsDbFree] using ha.2
      · simp only [setA, h0]
        simp only [beq_iff_eq, h0, if_false]
        simp only [fragsDbFree, List.all_cons, Bool.and_eq_true]
        exact ⟨ha.1, by simpa [fragsDbFree] using ih (by simpa [fragsDbFree] using ha.2)⟩

/-- The fragment table collected from a document carrying database
directives only at spread sites is database-directive free. -/
theorem collectFragments_dbFree (doc : Document) (h : dbFreeDoc doc = true) :
    fragsDbFree (collectFragments doc) = true := by
  have main : ∀ (ds : List Definition) (acc : List (String × FragmentDef)),
      ds.all dbFreeDef = true → fragsDbFree acc = true →
      fragsDbFree (ds.foldl
        (fun acc d =>
          match d with
          | Definition.fragmentDef fd => setA acc fd.name fd
          | _ => acc) acc) = true := by
    intro ds
    induction ds with
    | nil => intro acc _ ha; exact ha
    | cons d rest ih =>
        intro acc hall ha
        simp only [List.all_cons, Bool.and_eq_true] at hall
        cases d with
        | operationDef ds0 sels => exact ih acc hall.2 ha
        | fragmentDef fd =>
            exact ih (setA acc fd.name fd) hall.2
              (fragsDbFree_setA acc fd.name fd ha
                (by simpa [dbFreeDef] using hall.1))
  exact main doc.definitions [] (by simpa [dbFreeDoc] using h) rfl

/-- The root selections of the first operation definition of a document
carrying database directives only at spread sites are database-directive
free. -/
theorem findOperation_dbFree (ds : List Definition) (sels : Selections)
    (h : ds.all dbFreeDef = true) (hq : findOperation ds = some sels) :
    dbFreeSels sels = true := by
  induction ds with
  | nil => simp [findOperation] at hq
  | cons d rest ih =>
      simp only [List.all_cons, Bool.and_eq_true] at h
      cases d with
      | operationDef ds0 sels0 =>
          simp only [findOperation] at hq
          rw [← Option.some_inj.mp hq]
          simp only [dbFreeDef, Bool.and_eq_true] at h
          exact h.1.2
      | fragmentDef fd =>
          exact ih h.2 (by simpa [findOperation] using hq)

/-- Over a database-directive-free selection tree and fragment table, the
whole recursive traversal emits nothing, whatever the data and fuel. -/
theorem processData_dbFree (frags : List (String × FragmentDef))
    (hf : fragsDbFree frags = true) :
    ∀ n : Nat,
      (∀ data sels, dbFreeSels sels = true →
        processData frags n data sels = Out.empty)
      ∧ (∀ items sels, dbFreeSels sels = true →
          processItems frags n items sels = Out.empty)
      ∧ (∀ fields sels, dbFreeSels sels = true →
          processSels frags n fields sels = Out.empty)
      ∧ (∀ fields s, dbFreeSel s = true →
          processSel frags n fields s = Out.empty) := by
  intro n
  induction n with
  | zero =>
      exact ⟨fun _ _ _ => rfl, fun _ _ _ => rfl, fun _ _ _ => rfl,
        fun _ _ _ => rfl⟩
  | succ n ih =>
      obtain ⟨ihD, ihI, ihS, ihSel⟩ := ih
      refine ⟨?_, ?_, ?_, ?_⟩
      · intro data sels hs
        cases data with
        | vnull => rfl
        | vbool b => cases b <;> simp [processData, truthy]
        | vnum i => simp [processData, truthy]
        | vstr s0 => simp [processData, truthy]
        | varr items => simp [processData, truthy, ihI items sels hs]
        | vobj fields => simp [processData, truthy, ihS fields sels hs]
      · intro items sels hs
        cases items with
        | nil => rfl
        | cons it rest =>
            simp [processItems, ihD it sels hs, ihI rest sels hs, Out.seq,
              Out.empty]
      · intro fields sels hs
        cases sels with
        | nil => rfl
        | cons s rest =>
            simp only [dbFreeSels, Bool.and_eq_true] at hs
            simp [processSels, ihSel fields s hs.1, ihS fields rest hs.2,
              Out.seq, Out.empty]
      · intro fields s hsel
        cases s with
        | field name al dirs sub =>
            simp only [dbFreeSel, Bool.and_eq_true] at hsel
            simp [processSel, processDirectives_dbFree dirs _ hsel.1,
              ihD _ sub hsel.2, Out.seq, Out.empty]
        | inlineFragment dirs sub =>
            simp only [dbFreeSel, Bool.and_eq_true] at hsel
            simp [processSel, ihD _ sub hsel.2]
        | fragmentSpread nm sd =>
            cases hq : getA frags nm with
            | none => simp [processSel, hq]
            | some fd =>
                have hfd := frags_lookup_dbFree frags nm fd hf hq
                simp only [dbFreeFrag, Bool.and_eq_true] at hfd
                simp [processSel, hq,
                  processDirectives_dbFree fd.directives _ hfd.1,
                  ihD _ fd.selections hfd.2, Out.seq, Out.empty]

/-- Over a database-directive-free root selection list and fragment table,
the root loop emits nothing, whatever the data and fuel. -/
theorem processRootSels_dbFree (frags : List (String × FragmentDef))
    (hf : fragsDbFree frags = true) (n : Nat) :
    (∀ s, ∀ data : Value, dbFreeSel s = true →
      processRootSel frags n data s = Out.empty)
    ∧ (∀ l, ∀ data : Value, dbFreeSels l = true →
        processRootSels frags n data l = Out.empty) := by
  have hD := (processData_dbFree frags hf n).1
  refine selInduction ?_ ?_ ?_ ?_ ?_
  · intro name al ds sub ihsub data hsel
    simp only [dbFreeSel, Bool.and_eq_true] at hsel
    simp [processRootSel, processDirectives_dbFree ds _ hsel.1,
      hD _ sub hsel.2, Out.seq, Out.empty]
  · intro ds sub ihsub data hsel
    simp only [dbFreeSel, Bool.and_eq_true] at hsel
    simp [processRootSel, hD _ sub hsel.2]
  · intro nm ds data hsel
    cases hq : getA frags nm with
    | none => simp [processRootSel, hq]
    | some fd =>
        have hfd := frags_lookup_dbFree frags nm fd hf hq
        simp only [dbFreeFrag, Bool.and_eq_true] at hfd
        simp [processRootSel, hq,
          processDirectives_dbFree fd.directives _ hfd.1,
          hD _ fd.selections hfd.2, Out.seq, Out.empty]
  · intro data _
    rfl
  · intro s l ihs ihl data hsel
    simp only [dbFreeSels, Bool.and_eq_true] at hsel
    simp [processRootSels, ihs data hsel.1, ihl data hsel.2, Out.seq,
      Out.empty]

/-- C10: in a document where the database directives occur, if anywhere,
only on fragment spread nodes, and nowhere on fields, inline fragments,
operation definitions or fragment definitions, the whole reconciliation
emits nothing and leaves any store unchanged: the traversal never reads the
directives attached at a spread site, only those of the referenced fragment
definition. -/
theorem spreadSite_directives_never_applied (fuel : Nat) (doc : Document)
    (data : Value) (st : Store) (h : dbFreeDoc doc = true) :
    reconcile fuel doc data = Out.empty
    ∧ applyEvents st (reconcile fuel doc data).events = st := by
  have h1 : reconcile fuel doc data = Out.empty := by
    unfold reconcile
    cases ht : truthy data with
    | false => simp
    | true =>
        simp only [ht, Bool.true_eq_false, if_false]
        cases hq : findOperation doc.definitions with
        | none => rfl
        | some sels =>
            have hfree : dbFreeSels sels = true :=
              findOperation_dbFree doc.definitions sels
                (by simpa [dbFreeDoc] using h) hq
            exact (processRootSels_dbFree (collectFragments doc)
              (collectFragments_dbFree doc h) fuel).2 sels data hfree
  exact ⟨h1, by rw [h1]; rfl⟩

/-- C10 witness: a document whose only database directive sits on the
fragment spread itself, over data that a merge would otherwise readily
store: reconciliation emits nothing and the empty store stays empty. -/
theorem spreadSite_directives_never_applied_witness :
    reconcile 4
      ⟨[Definition.operationDef []
          (Selections.cons
            (Selection.fragmentSpread "F" [mergeDirOn (ValueNode.stringValue "t")])
            Selections.nil),
        Definition.fragmentDef ⟨"F", "T", [], Selections.nil⟩]⟩
      (Value.vobj [("id", Value.vstr "1")]) = Out.empty
    ∧ applyEvents Store.empty
        (reconcile 4
          ⟨[Definition.operationDef []
              (Selections.cons
                (Selection.fragmentSpread "F"
                  [mergeDirOn (ValueNode.stringValue "t")])
                Selections.nil),
            Definition.fragmentDef ⟨"F", "T", [], Selections.nil⟩]⟩
          (Value.vobj [("id", Value.vstr "1")])).events = Store.empty :=
  spreadSite_directives_never_applied 4 _ _ Store.empty (by rfl)

end UrqlTinybase
